import Mathlib

/-!
Verification of the Braavos trapdoor accumulator (src/src/main.rs).

The Rust engine works over `crypto_bigint` types `U256` / `U512` and a Montgomery
residue type `MontyForm<8>`.  The shallow embedding below models:

* every big integer as a `Nat` (U256 values carry the invariant `< 2 ^ 256`,
  stated in the well-formedness predicate `WF` rather than baked into a type);
* a `MontyForm<8>` value as its canonical residue in `[0, n)`: `MontyForm::new`
  is reduction mod `n`, `mul` is multiplication followed by reduction mod `n`,
  and `retrieve` is the identity.  This is exact for the library: Montgomery
  multiplication of reduced inputs returns the reduced product;
* the external safe-prime generator (the number-theory oracle of the spec) as a
  stream `gen : Nat → Nat` carried in the accumulator state together with a
  counter `ctr` of how many outputs have been consumed.  Each cache miss in
  `get_or_generate_element` consumes one fresh output, exactly like the call to
  `generate_safe_prime` in the source;
* the external `inv_mod` primitive of the BigInt engine by `invMod`, which
  returns the unique modular inverse below the modulus when it exists and
  `none` otherwise — the documented contract of `crypto_bigint::inv_mod`;
* the primality oracle used by setup as a Boolean function parameter.

`panic` outcomes (a failed `assert!`, a failed `unwrap`/`expect`) are modelled
as an explicit `SetupOutcome.panicked` constructor in setup; the four
accumulator operations contain no reachable panic, their guarded `unwrap` being
modelled by the corresponding `match`.
-/

namespace Braavos

/-- `2 ^ 256`, the size of the `U256` value space. -/
def U256LIM : Nat := 2 ^ 256

/-- State of `struct BraavosAccumulator`.  `gen`/`ctr` model the external
safe-prime generator stream (not Rust fields); `monty_params` is determined by
`n` and therefore not repeated here. -/
structure Accumulator where
  sk : Nat
  n : Nat
  a : Nat
  prf_key : Nat
  element_cache : List (List Nat × Nat)
  gen : Nat → Nat
  ctr : Nat

/-- The single operation-level error of the engine: the exponent has no inverse
modulo the secret group order (source string literals
`Element not invertible modulo sk` and `y is not invertible modulo ...`). -/
inductive AccError where
  | notInvertible
deriving DecidableEq

/-- Setup errors: the two `Err` branches of `BraavosAccumulator::new`. -/
inductive SetupErr where
  | nonPrimeCompanion
  | badReconstruction
deriving DecidableEq

/-- Outcome of `BraavosAccumulator::new`: a Rust panic (failed `assert!` or
`unwrap`/`expect`), an `Err`, or a fully initialized instance. -/
inductive SetupOutcome where
  | panicked : SetupOutcome
  | failed : SetupErr → SetupOutcome
  | ok : Accumulator → SetupOutcome

/-- Lookup in the element cache (`HashMap<Vec<u8>, U256>` modelled as an
association list; the engine only inserts a key after a failed lookup, so keys
are unique and list order is irrelevant). -/
def cacheLookup : List (List Nat × Nat) → List Nat → Option Nat
  | [], _ => none
  | (k, v) :: rest, x => if k = x then some v else cacheLookup rest x

/-- Model of the external `crypto_bigint` primitive `e.inv_mod(&m)`: the unique
inverse of `e` below `m` when `gcd e m = 1`, and `none` otherwise. -/
def invMod (e m : Nat) : Option Nat :=
  (List.range m).find? fun v => e * v % m == 1 % m

/-- The loop body of `mont_mod_exp`, processing exponent bits `i-1, ..., 0`
(the source iterates `for i in (0..512).rev()`): square, multiply when the bit
is set, and convert out of and back into Montgomery form (a reduction mod `n`)
at every 64-bit chunk boundary. -/
def montLoop (n base e : Nat) : Nat → Nat → Nat
  | 0, r => r
  | i + 1, r =>
      let r1 := r * r % n
      let r2 := if e.testBit i then r1 * base % n else r1
      let r3 := if i % 64 == 0 then r2 % n else r2
      montLoop n base e i r3

/-- `BraavosAccumulator::mont_mod_exp`: 512-bit most-significant-bit-first
square-and-multiply, starting from the Montgomery form of `1`. -/
def mont_mod_exp (n base e : Nat) : Nat :=
  montLoop n base e 512 (1 % n)

/-- The same square-and-multiply loop without the periodic per-chunk
reduction.  Modelled from the spec: section 4.3 describes the reduction as "a
performance/safety measure ... an implementation ... may omit the periodic
reduction"; this is the plain variant the refinement claim compares against. -/
def plainLoop (n base e : Nat) : Nat → Nat → Nat
  | 0, r => r
  | i + 1, r =>
      let r1 := r * r % n
      let r2 := if e.testBit i then r1 * base % n else r1
      plainLoop n base e i r2

/-- Plain modular exponentiation loop of the spec, without periodic reduction. -/
def plain_mod_exp (n base e : Nat) : Nat :=
  plainLoop n base e 512 (1 % n)

/-- `BraavosAccumulator::get_or_generate_element`: consult the cache first; on
a miss draw a fresh prime from the generator stream and insert it.  (The seed
buffer built from the element and the PRF key is dead code in the source — it
is never passed to the generator — and is therefore not modelled.) -/
def get_or_generate_element (s : Accumulator) (x : List Nat) : Nat × Accumulator :=
  match cacheLookup s.element_cache x with
  | some prime => (prime, s)
  | none =>
      let prime := s.gen s.ctr
      (prime, { s with element_cache := (x, prime) :: s.element_cache, ctr := s.ctr + 1 })

/-- `BraavosAccumulator::add`. -/
def add (s : Accumulator) (x : List Nat) : Except AccError Nat × Accumulator :=
  let r := get_or_generate_element s x
  match invMod r.1 r.2.sk with
  | none => (Except.error AccError.notInvertible, r.2)
  | some elemInv => (Except.ok (mont_mod_exp r.2.n r.2.a elemInv % r.2.n), r.2)

/-- `BraavosAccumulator::delete`. -/
def delete (s : Accumulator) (x : List Nat) : Except AccError Unit × Accumulator :=
  let r := get_or_generate_element s x
  match invMod r.1 r.2.sk with
  | none => (Except.error AccError.notInvertible, r.2)
  | some elemInv =>
      (Except.ok (), { r.2 with a := mont_mod_exp r.2.n r.2.a elemInv % r.2.n })

/-- `BraavosAccumulator::verify` (the `println!` diagnostics have no effect on
state or result and are not modelled). -/
def verify (s : Accumulator) (x : List Nat) (w : Nat) : Bool × Accumulator :=
  let r := get_or_generate_element s x
  (mont_mod_exp r.2.n (w % r.2.n) r.1 % r.2.n == r.2.a % r.2.n, r.2)

/-- `BraavosAccumulator::update_witness_on_deletion` (the debug
re-exponentiations `result^y` and `result^x` are printed and discarded in the
source, so they are not modelled). -/
def update_witness_on_deletion (s : Accumulator) (x : List Nat) (w : Nat) (y : List Nat) :
    Except AccError Nat × Accumulator :=
  let rx := get_or_generate_element s x
  let ry := get_or_generate_element rx.2 y
  match invMod ry.1 ry.2.sk with
  | none => (Except.error AccError.notInvertible, ry.2)
  | some yInv =>
      (Except.ok (mont_mod_exp ry.2.n (w % ry.2.n) yInv % ry.2.n), ry.2)

/-- `CheckedMul::checked_mul` at width `2 ^ w`: `none` models the overflow case
whose `unwrap` panics. -/
def checkedMul (w a b : Nat) : Option Nat :=
  if a * b < 2 ^ w then some (a * b) else none

/-- `crypto_primes::is_safe_prime`, expressed through the primality oracle:
`p` is prime and so is its companion `(p - 1) / 2` (glossary: a safe prime is a
prime `P` such that `(P - 1) / 2` is also prime). -/
def is_safe_prime (isP : Nat → Bool) (p : Nat) : Bool :=
  isP p && isP ((p - 1) / 2)

/-- `BraavosAccumulator::new`, with the oracles passed explicitly: `isP` is the
primality oracle, `p` and `q` are the two outputs of `generate_safe_prime`,
`aRand` and `prfKey` the two random samples, `g` the generator stream handed to
the new instance.  The `assert!(is_safe_prime(..))` calls and every `unwrap` /
`expect` are modelled as `SetupOutcome.panicked`. -/
def new (isP : Nat → Bool) (p q aRand prfKey : Nat) (g : Nat → Nat) : SetupOutcome :=
  if !(is_safe_prime isP p) then SetupOutcome.panicked
  else if !(is_safe_prime isP q) then SetupOutcome.panicked
  else
    let pPr := (p - 1) / 2
    let qPr := (q - 1) / 2
    if !(isP pPr) || !(isP qPr) then SetupOutcome.failed SetupErr.nonPrimeCompanion
    else
      match checkedMul 256 pPr 2, checkedMul 256 qPr 2 with
      | some pc, some qc =>
          if pc + 1 != p || qc + 1 != q then SetupOutcome.failed SetupErr.badReconstruction
          else
            match checkedMul 512 p q with
            | some n =>
                if n % 2 == 0 then SetupOutcome.panicked
                else
                  match checkedMul 256 pPr qPr with
                  | some sk =>
                      let ar := aRand % n
                      SetupOutcome.ok
                        { sk := sk, n := n, a := ar * ar % n,
                          prf_key := prfKey % (2 ^ 256 - 1),
                          element_cache := [], gen := g, ctr := 0 }
                  | none => SetupOutcome.panicked
            | none => SetupOutcome.panicked
      | _, _ => SetupOutcome.panicked

/-- Type-level invariants of the Rust representation: `n` is a nonzero `U512`,
the stored accumulator residue is reduced, `sk` and every exponent the
generator or the cache can produce fit in a `U256`. -/
def WF (s : Accumulator) : Prop :=
  0 < s.n ∧ s.a < s.n ∧ s.sk ≤ U256LIM ∧ (∀ k, s.gen k < U256LIM) ∧
    ∀ kv ∈ s.element_cache, kv.2 < U256LIM

/-- The reachable-state invariant: the stored accumulator value is an `sk`-th
root of unity mod `n`.  Setup establishes it (the initial value is the square
of a unit, see `new_good`) and every operation preserves it
(`delete_preserves_good` together with the frame lemmas for the other
operations). -/
def GoodAcc (s : Accumulator) : Prop :=
  s.a ^ s.sk % s.n = 1 % s.n

/-! ### Concrete instances used to evaluate the definitions

`p = 7`, `q = 11` are safe primes (companions `3` and `5`), giving `n = 77`,
`sk = 15`; with random element `2` the initial accumulator value is `4`, and
`4 ^ 15 = 2 ^ 30 ≡ 1 (mod 77)`, so the state is good. -/

/-- A generator stream that always outputs the prime `2` (coprime to `15`). -/
def g2 : Nat → Nat := fun _ => 2

/-- A generator stream that always outputs `3`, which shares the factor `3`
with `sk = 15` and is therefore not invertible. -/
def g3 : Nat → Nat := fun _ => 3

/-- A generator stream outputting `2` first and `7` afterwards (both coprime
to `15`). -/
def gXY : Nat → Nat := fun k => if k = 0 then 2 else 7

/-- The accumulator produced by `new` from `p = 7`, `q = 11`, random element
`2`, PRF key `0` and stream `g2`. -/
def sW : Accumulator :=
  { sk := 15, n := 77, a := 4, prf_key := 0, element_cache := [], gen := g2, ctr := 0 }

/-- `sW` with the element `[7]` already resolved to exponent `2`. -/
def sC : Accumulator :=
  { sk := 15, n := 77, a := 4, prf_key := 0, element_cache := [([7], 2)], gen := g2, ctr := 0 }

/-- `sW` with the non-invertible stream `g3`. -/
def sB : Accumulator :=
  { sk := 15, n := 77, a := 4, prf_key := 0, element_cache := [], gen := g3, ctr := 0 }

/-- Like `sW` but with stream `gXY`, used for the delete/update scenario. -/
def sD : Accumulator :=
  { sk := 15, n := 77, a := 4, prf_key := 0, element_cache := [], gen := gXY, ctr := 0 }

/-- `sD` after `verify [7]` cached the exponent `2` for `[7]`. -/
def sD1 : Accumulator :=
  { sk := 15, n := 77, a := 4, prf_key := 0, element_cache := [([7], 2)], gen := gXY, ctr := 1 }

/-- `sD1` after `delete [8]`: exponent `7` cached for `[8]`, inverse
`7⁻¹ = 13 (mod 15)`, accumulator `4 ^ 13 ≡ 53 (mod 77)`. -/
def sD2 : Accumulator :=
  { sk := 15, n := 77, a := 53, prf_key := 0, element_cache := [([8], 7), ([7], 2)],
    gen := gXY, ctr := 2 }

/-- A genuine (executable, structurally recursive) primality test, used as the
concrete number-theory oracle in counterexamples and witnesses. -/
def isPrimeNat (k : Nat) : Bool :=
  decide (2 ≤ k) && (List.range k).all fun d => decide (d ≤ 1) || k % d != 0

/-! ### Facts about `invMod` -/

theorem invMod_some {e m v : Nat} (h : invMod e m = some v) :
    e * v % m = 1 % m ∧ v < m := by
  refine ⟨?_, ?_⟩
  · have := List.find?_some h
    simpa using this
  · have := List.mem_of_find?_eq_some h
    simpa using this

theorem invMod_isSome_of_gcd {e m : Nat} (hm : 0 < m) (h : Nat.gcd e m = 1) :
    ∃ v, invMod e m = some v := by
  rcases Nat.lt_or_ge 1 m with hm1 | hm1
  · obtain ⟨v, hv⟩ := Nat.exists_mul_emod_eq_one_of_coprime h hm1
    have hmem : v % m ∈ List.range m := List.mem_range.mpr (Nat.mod_lt _ hm)
    have hpred : e * (v % m) % m = 1 % m := by
      have h1 : e * (v % m) ≡ e * v [MOD m] := Nat.ModEq.mul_left e (Nat.mod_modEq v m)
      have h2 : e * (v % m) % m = e * v % m := h1
      rw [h2, hv, Nat.mod_eq_of_lt hm1]
    have : (List.range m).find? (fun v => e * v % m == 1 % m) ≠ none := by
      intro hnone
      have := (List.find?_eq_none.mp hnone) (v % m) hmem
      simp [hpred] at this
    rcases ho : invMod e m with _ | v'
    · exact absurd ho this
    · exact ⟨v', rfl⟩
  · have hm1 : m = 1 := Nat.le_antisymm hm1 hm
    subst hm1
    exact ⟨0, rfl⟩

theorem gcd_eq_one_of_invMod_some {e m v : Nat} (h : invMod e m = some v) :
    Nat.gcd e m = 1 := by
  obtain ⟨hev, hvm⟩ := invMod_some h
  have hm : 0 < m := Nat.pos_of_ne_zero fun h0 => by subst h0; exact absurd hvm (Nat.not_lt_zero v)
  have hme : e * v ≡ 1 [MOD m] := hev
  have hd : Nat.gcd e m ∣ m := Nat.gcd_dvd_right e m
  have h1 : e * v ≡ 1 [MOD Nat.gcd e m] := Nat.ModEq.of_dvd hd hme
  have h0 : e * v ≡ 0 [MOD Nat.gcd e m] :=
    Nat.modEq_zero_iff_dvd.mpr (Dvd.dvd.mul_right (Nat.gcd_dvd_left e m) v)
  have : (1 : Nat) ≡ 0 [MOD Nat.gcd e m] := h1.symm.trans h0
  exact Nat.dvd_one.mp (Nat.modEq_zero_iff_dvd.mp this)

theorem invMod_eq_none_iff {e m : Nat} (hm : 0 < m) :
    invMod e m = none ↔ Nat.gcd e m ≠ 1 := by
  constructor
  · intro hnone hgcd
    obtain ⟨v, hv⟩ := invMod_isSome_of_gcd hm hgcd
    rw [hnone] at hv
    cases hv
  · intro hgcd
    rcases ho : invMod e m with _ | v
    · rfl
    · exact absurd (gcd_eq_one_of_invMod_some ho) hgcd

/-! ### Facts about the element cache and `get_or_generate_element` -/

theorem cacheLookup_mem {c : List (List Nat × Nat)} {x : List Nat} {e : Nat}
    (h : cacheLookup c x = some e) : (x, e) ∈ c := by
  induction c with
  | nil => cases h
  | cons kv rest ih =>
      obtain ⟨k, v⟩ := kv
      by_cases hk : k = x
      · subst hk
        simp [cacheLookup] at h
        subst h
        exact List.mem_cons_self _ _
      · simp [cacheLookup, hk] at h
        exact List.mem_cons_of_mem _ (ih h)

theorem getOrGen_hit {s : Accumulator} {x : List Nat} {e : Nat}
    (h : cacheLookup s.element_cache x = some e) :
    get_or_generate_element s x = (e, s) := by
  unfold get_or_generate_element
  rw [h]

theorem getOrGen_miss {s : Accumulator} {x : List Nat}
    (h : cacheLookup s.element_cache x = none) :
    get_or_generate_element s x =
      (s.gen s.ctr,
        { s with element_cache := (x, s.gen s.ctr) :: s.element_cache, ctr := s.ctr + 1 }) := by
  unfold get_or_generate_element
  rw [h]

@[simp] theorem getOrGen_sk (s : Accumulator) (x : List Nat) :
    (get_or_generate_element s x).2.sk = s.sk := by
  cases h : cacheLookup s.element_cache x <;> simp [get_or_generate_element, h]

@[simp] theorem getOrGen_n (s : Accumulator) (x : List Nat) :
    (get_or_generate_element s x).2.n = s.n := by
  cases h : cacheLookup s.element_cache x <;> simp [get_or_generate_element, h]

@[simp] theorem getOrGen_a (s : Accumulator) (x : List Nat) :
    (get_or_generate_element s x).2.a = s.a := by
  cases h : cacheLookup s.element_cache x <;> simp [get_or_generate_element, h]

@[simp] theorem getOrGen_prf (s : Accumulator) (x : List Nat) :
    (get_or_generate_element s x).2.prf_key = s.prf_key := by
  cases h : cacheLookup s.element_cache x <;> simp [get_or_generate_element, h]

@[simp] theorem getOrGen_gen (s : Accumulator) (x : List Nat) :
    (get_or_generate_element s x).2.gen = s.gen := by
  cases h : cacheLookup s.element_cache x <;> simp [get_or_generate_element, h]

theorem getOrGen_lookup_self (s : Accumulator) (x : List Nat) :
    cacheLookup (get_or_generate_element s x).2.element_cache x =
      some (get_or_generate_element s x).1 := by
  cases h : cacheLookup s.element_cache x with
  | none => simp [get_or_generate_element, h, cacheLookup]
  | some e => simp [get_or_generate_element, h]

theorem getOrGen_lookup_mono {s : Accumulator} {z : List Nat} {e : Nat} (y : List Nat)
    (h : cacheLookup s.element_cache z = some e) :
    cacheLookup (get_or_generate_element s y).2.element_cache z = some e := by
  cases hy : cacheLookup s.element_cache y with
  | none =>
      have hyz : y ≠ z := by
        intro hEq
        subst hEq
        rw [hy] at h
        cases h
      simp [get_or_generate_element, hy, cacheLookup, hyz, h]
  | some p => simp [get_or_generate_element, hy, h]

theorem getOrGen_fst_lt {s : Accumulator} (x : List Nat) (hWF : WF s) :
    (get_or_generate_element s x).1 < U256LIM := by
  obtain ⟨-, -, -, hg, hc⟩ := hWF
  cases h : cacheLookup s.element_cache x with
  | none => simpa [get_or_generate_element, h] using hg s.ctr
  | some e =>
      have := hc _ (cacheLookup_mem h)
      simpa [get_or_generate_element, h] using this

theorem WF_getOrGen {s : Accumulator} (x : List Nat) (hWF : WF s) :
    WF (get_or_generate_element s x).2 := by
  obtain ⟨h1, h2, h3, h4, h5⟩ := hWF
  cases h : cacheLookup s.element_cache x with
  | none =>
      refine ⟨by simpa [get_or_generate_element, h] using h1,
        by simpa [get_or_generate_element, h] using h2,
        by simpa [get_or_generate_element, h] using h3,
        by simpa [get_or_generate_element, h] using h4, ?_⟩
      intro kv hkv
      simp only [get_or_generate_element, h] at hkv
      rcases List.mem_cons.mp hkv with hkv | hkv
      · subst hkv
        exact h4 s.ctr
      · exact h5 _ hkv
  | some e =>
      rw [getOrGen_hit h]
      exact ⟨h1, h2, h3, h4, h5⟩

/-! ### Correctness of the modular exponentiation loops -/

theorem mod_eq_of_modEq {n a b : Nat} (h : a ≡ b [MOD n]) : a % n = b % n := h

theorem mod_two_pow_succ (e i : Nat) :
    e % 2 ^ (i + 1) = 2 ^ i * (e / 2 ^ i % 2) + e % 2 ^ i := by
  conv_lhs => rw [← Nat.div_add_mod (e % 2 ^ (i + 1)) (2 ^ i)]
  rw [Nat.mod_mod_of_dvd _ (Nat.pow_dvd_pow 2 (Nat.le_succ i)), Nat.pow_succ,
    Nat.mod_mul_right_div_self]

theorem testBit_true_div_mod {e i : Nat} (h : e.testBit i = true) : e / 2 ^ i % 2 = 1 := by
  rw [Nat.testBit_to_div_mod] at h
  exact of_decide_eq_true h

theorem testBit_false_div_mod {e i : Nat} (h : e.testBit i = false) : e / 2 ^ i % 2 = 0 := by
  rw [Nat.testBit_to_div_mod] at h
  have h1 : ¬ e / 2 ^ i % 2 = 1 := of_decide_eq_false h
  omega

theorem montLoop_eq (n base e : Nat) (hn : 0 < n) :
    ∀ (i : Nat) (r : Nat), r < n →
      montLoop n base e i r = r ^ 2 ^ i * base ^ (e % 2 ^ i) % n := by
  intro i
  induction i with
  | zero =>
      intro r hr
      simp [montLoop, Nat.mod_one, Nat.mod_eq_of_lt hr]
  | succ i ih =>
      intro r hr
      have hr1 : r * r % n < n := Nat.mod_lt _ hn
      cases hbit : e.testBit i with
      | true =>
          have hb : e / 2 ^ i % 2 = 1 := testBit_true_div_mod hbit
          have hr2 : r * r % n * base % n < n := Nat.mod_lt _ hn
          have hstep : montLoop n base e (i + 1) r = montLoop n base e i (r * r % n * base % n) := by
            simp only [montLoop, hbit, if_true]
            rcases Nat.eq_zero_or_pos (i % 64) with h64 | h64
            · simp [h64, Nat.mod_mod_of_dvd _ (dvd_refl n)]
            · simp [Nat.pos_iff_ne_zero.mp h64]
          rw [hstep, ih _ hr2]
          refine mod_eq_of_modEq ?_
          have hc : r * r % n * base % n ≡ r * r * base [MOD n] :=
            (Nat.mod_modEq _ n).trans (Nat.ModEq.mul_right base (Nat.mod_modEq _ n))
          calc (r * r % n * base % n) ^ 2 ^ i * base ^ (e % 2 ^ i)
              ≡ (r * r * base) ^ 2 ^ i * base ^ (e % 2 ^ i) [MOD n] :=
                Nat.ModEq.mul_right _ (Nat.ModEq.pow _ hc)
            _ = r ^ 2 ^ (i + 1) * base ^ (e % 2 ^ (i + 1)) := by
                rw [mod_two_pow_succ e i, hb, Nat.pow_succ]
                ring
      | false =>
          have hb : e / 2 ^ i % 2 = 0 := testBit_false_div_mod hbit
          have hstep : montLoop n base e (i + 1) r = montLoop n base e i (r * r % n) := by
            simp only [montLoop, hbit, if_false]
            rcases Nat.eq_zero_or_pos (i % 64) with h64 | h64
            · simp [h64, Nat.mod_mod_of_dvd _ (dvd_refl n)]
            · simp [Nat.pos_iff_ne_zero.mp h64]
          rw [hstep, ih _ hr1]
          refine mod_eq_of_modEq ?_
          calc (r * r % n) ^ 2 ^ i * base ^ (e % 2 ^ i)
              ≡ (r * r) ^ 2 ^ i * base ^ (e % 2 ^ i) [MOD n] :=
                Nat.ModEq.mul_right _ (Nat.ModEq.pow _ (Nat.mod_modEq _ n))
            _ = r ^ 2 ^ (i + 1) * base ^ (e % 2 ^ (i + 1)) := by
                rw [mod_two_pow_succ e i, hb, Nat.pow_succ]
                ring

theorem plainLoop_eq (n base e : Nat) (hn : 0 < n) :
    ∀ (i : Nat) (r : Nat), r < n →
      plainLoop n base e i r = r ^ 2 ^ i * base ^ (e % 2 ^ i) % n := by
  intro i
  induction i with
  | zero =>
      intro r hr
      simp [plainLoop, Nat.mod_one, Nat.mod_eq_of_lt hr]
  | succ i ih =>
      intro r hr
      have hr1 : r * r % n < n := Nat.mod_lt _ hn
      cases hbit : e.testBit i with
      | true =>
          have hb : e / 2 ^ i % 2 = 1 := testBit_true_div_mod hbit
          have hr2 : r * r % n * base % n < n := Nat.mod_lt _ hn
          have hstep : plainLoop n base e (i + 1) r = plainLoop n base e i (r * r % n * base % n) := by
            simp only [plainLoop, hbit, if_true]
          rw [hstep, ih _ hr2]
          refine mod_eq_of_modEq ?_
          have hc : r * r % n * base % n ≡ r * r * base [MOD n] :=
            (Nat.mod_modEq _ n).trans (Nat.ModEq.mul_right base (Nat.mod_modEq _ n))
          calc (r * r % n * base % n) ^ 2 ^ i * base ^ (e % 2 ^ i)
              ≡ (r * r * base) ^ 2 ^ i * base ^ (e % 2 ^ i) [MOD n] :=
                Nat.ModEq.mul_right _ (Nat.ModEq.pow _ hc)
            _ = r ^ 2 ^ (i + 1) * base ^ (e % 2 ^ (i + 1)) := by
                rw [mod_two_pow_succ e i, hb, Nat.pow_succ]
                ring
      | false =>
          have hb : e / 2 ^ i % 2 = 0 := testBit_false_div_mod hbit
          have hstep : plainLoop n base e (i + 1) r = plainLoop n base e i (r * r % n) := by
            simp [plainLoop, hbit]
          rw [hstep, ih _ hr1]
          refine mod_eq_of_modEq ?_
          calc (r * r % n) ^ 2 ^ i * base ^ (e % 2 ^ i)
              ≡ (r * r) ^ 2 ^ i * base ^ (e % 2 ^ i) [MOD n] :=
                Nat.ModEq.mul_right _ (Nat.ModEq.pow _ (Nat.mod_modEq _ n))
            _ = r ^ 2 ^ (i + 1) * base ^ (e % 2 ^ (i + 1)) := by
                rw [mod_two_pow_succ e i, hb, Nat.pow_succ]
                ring

theorem mont_mod_exp_eq {n : Nat} (base e : Nat) (hn : 0 < n) (he : e < 2 ^ 512) :
    mont_mod_exp n base e = base ^ e % n := by
  unfold mont_mod_exp
  rw [montLoop_eq n base e hn 512 (1 % n) (Nat.mod_lt _ hn), Nat.mod_eq_of_lt he]
  refine mod_eq_of_modEq ?_
  calc (1 % n) ^ 2 ^ 512 * base ^ e
      ≡ 1 ^ 2 ^ 512 * base ^ e [MOD n] :=
        Nat.ModEq.mul_right _ (Nat.ModEq.pow _ (Nat.mod_modEq 1 n))
    _ = base ^ e := by rw [one_pow, one_mul]

theorem plain_mod_exp_eq {n : Nat} (base e : Nat) (hn : 0 < n) (he : e < 2 ^ 512) :
    plain_mod_exp n base e = base ^ e % n := by
  unfold plain_mod_exp
  rw [plainLoop_eq n base e hn 512 (1 % n) (Nat.mod_lt _ hn), Nat.mod_eq_of_lt he]
  refine mod_eq_of_modEq ?_
  calc (1 % n) ^ 2 ^ 512 * base ^ e
      ≡ 1 ^ 2 ^ 512 * base ^ e [MOD n] :=
        Nat.ModEq.mul_right _ (Nat.ModEq.pow _ (Nat.mod_modEq 1 n))
    _ = base ^ e := by rw [one_pow, one_mul]

/-! ### The trapdoor cancellation law -/

theorem pow_one_mod_self {n a sk : Nat} (hGood : a ^ sk % n = 1 % n) :
    a ^ (1 % sk) % n = a % n := by
  match sk with
  | 0 => simp
  | 1 =>
      have : a % n = 1 % n := by simpa using hGood
      simpa using this.symm
  | k + 2 => rw [Nat.one_mod, pow_one]

theorem pow_modEq_cancel {n a sk ev : Nat} (hGood : a ^ sk % n = 1 % n)
    (hev : ev % sk = 1 % sk) : a ^ ev % n = a % n := by
  have h1 : a ^ ev = (a ^ sk) ^ (ev / sk) * a ^ (ev % sk) := by
    rw [← Nat.pow_mul, ← Nat.pow_add, Nat.div_add_mod]
  have hGood' : a ^ sk ≡ 1 [MOD n] := hGood
  have h2 : (a ^ sk) ^ (ev / sk) * a ^ (ev % sk) ≡ 1 * a ^ (ev % sk) [MOD n] := by
    have := (Nat.ModEq.pow (ev / sk) hGood').mul_right (a ^ (ev % sk))
    simpa using this
  have h3 : a ^ ev % n = a ^ (ev % sk) % n := by
    rw [h1]
    have := mod_eq_of_modEq h2
    simpa using this
  rw [h3, hev]
  exact pow_one_mod_self hGood

/-! ### Unfolding and frame lemmas for the four operations -/

theorem add_eq_none {s : Accumulator} {x : List Nat}
    (h : invMod (get_or_generate_element s x).1 s.sk = none) :
    add s x = (Except.error AccError.notInvertible, (get_or_generate_element s x).2) := by
  unfold add
  dsimp only
  rw [getOrGen_sk, h]

theorem add_eq_some {s : Accumulator} {x : List Nat} {v : Nat}
    (h : invMod (get_or_generate_element s x).1 s.sk = some v) :
    add s x = (Except.ok (mont_mod_exp s.n s.a v % s.n), (get_or_generate_element s x).2) := by
  unfold add
  dsimp only
  rw [getOrGen_sk, h, getOrGen_n, getOrGen_a]

theorem delete_eq_none {s : Accumulator} {x : List Nat}
    (h : invMod (get_or_generate_element s x).1 s.sk = none) :
    delete s x = (Except.error AccError.notInvertible, (get_or_generate_element s x).2) := by
  unfold delete
  dsimp only
  rw [getOrGen_sk, h]

theorem delete_eq_some {s : Accumulator} {x : List Nat} {v : Nat}
    (h : invMod (get_or_generate_element s x).1 s.sk = some v) :
    delete s x = (Except.ok (),
      { (get_or_generate_element s x).2 with a := mont_mod_exp s.n s.a v % s.n }) := by
  unfold delete
  dsimp only
  rw [getOrGen_sk, h, getOrGen_n, getOrGen_a]

theorem verify_eq (s : Accumulator) (x : List Nat) (w : Nat) :
    verify s x w =
      (mont_mod_exp s.n (w % s.n) (get_or_generate_element s x).1 % s.n == s.a % s.n,
        (get_or_generate_element s x).2) := by
  unfold verify
  dsimp only
  rw [getOrGen_n, getOrGen_a]

theorem update_eq_none {s : Accumulator} {x y : List Nat} (w : Nat)
    (h : invMod (get_or_generate_element (get_or_generate_element s x).2 y).1 s.sk = none) :
    update_witness_on_deletion s x w y =
      (Except.error AccError.notInvertible,
        (get_or_generate_element (get_or_generate_element s x).2 y).2) := by
  unfold update_witness_on_deletion
  dsimp only
  rw [getOrGen_sk, getOrGen_sk, h]

theorem update_eq_some {s : Accumulator} {x y : List Nat} {v : Nat} (w : Nat)
    (h : invMod (get_or_generate_element (get_or_generate_element s x).2 y).1 s.sk = some v) :
    update_witness_on_deletion s x w y =
      (Except.ok (mont_mod_exp s.n (w % s.n) v % s.n),
        (get_or_generate_element (get_or_generate_element s x).2 y).2) := by
  unfold update_witness_on_deletion
  dsimp only
  rw [getOrGen_sk, getOrGen_sk, h, getOrGen_n, getOrGen_n]

theorem add_cache (s : Accumulator) (x : List Nat) :
    (add s x).2.element_cache = (get_or_generate_element s x).2.element_cache := by
  cases h : invMod (get_or_generate_element s x).1 s.sk with
  | none => rw [add_eq_none h]
  | some v => rw [add_eq_some h]

theorem add_state (s : Accumulator) (x : List Nat) :
    (add s x).2 = (get_or_generate_element s x).2 := by
  cases h : invMod (get_or_generate_element s x).1 s.sk with
  | none => rw [add_eq_none h]
  | some v => rw [add_eq_some h]

theorem delete_cache (s : Accumulator) (x : List Nat) :
    (delete s x).2.element_cache = (get_or_generate_element s x).2.element_cache := by
  cases h : invMod (get_or_generate_element s x).1 s.sk with
  | none => rw [delete_eq_none h]
  | some v => rw [delete_eq_some h]

theorem verify_cache (s : Accumulator) (x : List Nat) (w : Nat) :
    (verify s x w).2.element_cache = (get_or_generate_element s x).2.element_cache := by
  rw [verify_eq]

theorem update_cache (s : Accumulator) (x : List Nat) (w : Nat) (y : List Nat) :
    (update_witness_on_deletion s x w y).2.element_cache =
      (get_or_generate_element (get_or_generate_element s x).2 y).2.element_cache := by
  cases h : invMod (get_or_generate_element (get_or_generate_element s x).2 y).1 s.sk with
  | none => rw [update_eq_none w h]
  | some v => rw [update_eq_some w h]

/-! ### Preservation of the representation and reachability invariants -/

theorem WF_set_a {s : Accumulator} {z : Nat} (hWF : WF s) (hz : z < s.n) :
    WF { s with a := z } := by
  obtain ⟨h1, -, h3, h4, h5⟩ := hWF
  exact ⟨h1, hz, h3, h4, h5⟩

theorem WF_verify {s : Accumulator} (x : List Nat) (w : Nat) (hWF : WF s) :
    WF (verify s x w).2 := by
  rw [verify_eq]
  exact WF_getOrGen x hWF

theorem WF_add {s : Accumulator} (x : List Nat) (hWF : WF s) :
    WF (add s x).2 := by
  rw [add_state]
  exact WF_getOrGen x hWF

theorem WF_delete {s : Accumulator} (x : List Nat) (hWF : WF s) :
    WF (delete s x).2 := by
  cases h : invMod (get_or_generate_element s x).1 s.sk with
  | none =>
      rw [delete_eq_none h]
      exact WF_getOrGen x hWF
  | some v =>
      rw [delete_eq_some h]
      refine WF_set_a (WF_getOrGen x hWF) ?_
      rw [getOrGen_n]
      exact Nat.mod_lt _ hWF.1

theorem add_good {s : Accumulator} (x : List Nat) (hGood : GoodAcc s) :
    GoodAcc (add s x).2 := by
  unfold GoodAcc
  rw [add_state, getOrGen_a, getOrGen_sk, getOrGen_n]
  exact hGood

theorem verify_good {s : Accumulator} (x : List Nat) (w : Nat) (hGood : GoodAcc s) :
    GoodAcc (verify s x w).2 := by
  unfold GoodAcc
  rw [verify_eq, getOrGen_a, getOrGen_sk, getOrGen_n]
  exact hGood

theorem update_good {s : Accumulator} (x : List Nat) (w : Nat) (y : List Nat)
    (hGood : GoodAcc s) : GoodAcc (update_witness_on_deletion s x w y).2 := by
  unfold GoodAcc
  cases h : invMod (get_or_generate_element (get_or_generate_element s x).2 y).1 s.sk with
  | none =>
      rw [update_eq_none w h]
      simpa using hGood
  | some v =>
      rw [update_eq_some w h]
      simpa using hGood

theorem delete_preserves_good {s : Accumulator} (x : List Nat) (hWF : WF s)
    (hGood : GoodAcc s) : GoodAcc (delete s x).2 := by
  unfold GoodAcc
  cases h : invMod (get_or_generate_element s x).1 s.sk with
  | none =>
      rw [delete_eq_none h]
      simpa using hGood
  | some v =>
      obtain ⟨hn, -, hsk, -, -⟩ := hWF
      obtain ⟨-, hv⟩ := invMod_some h
      have hv512 : v < 2 ^ 512 :=
        lt_of_lt_of_le (lt_of_lt_of_le hv hsk) (by norm_num [U256LIM])
      rw [delete_eq_some h]
      dsimp only
      rw [getOrGen_sk, getOrGen_n]
      simp only [mont_mod_exp_eq s.a v hn hv512, Nat.mod_mod_of_dvd _ (dvd_refl s.n)]
      refine mod_eq_of_modEq ?_
      have hGood' : s.a ^ s.sk ≡ 1 [MOD s.n] := hGood
      calc (s.a ^ v % s.n) ^ s.sk
          ≡ (s.a ^ v) ^ s.sk [MOD s.n] := Nat.ModEq.pow _ (Nat.mod_modEq _ s.n)
        _ = (s.a ^ s.sk) ^ v := by rw [← pow_mul, ← pow_mul, Nat.mul_comm]
        _ ≡ 1 ^ v [MOD s.n] := Nat.ModEq.pow _ hGood'
        _ = 1 := one_pow v

/-! ### Inversion of a successful setup -/

theorem checkedMul_some {w a b c : Nat} (h : checkedMul w a b = some c) :
    c = a * b ∧ a * b < 2 ^ w := by
  unfold checkedMul at h
  split at h
  · cases h
    exact ⟨rfl, by assumption⟩
  · cases h

theorem new_ok_inv {isP : Nat → Bool} {p q ar pk : Nat} {g : Nat → Nat} {s : Accumulator}
    (h : new isP p q ar pk g = SetupOutcome.ok s) :
    s.n = p * q ∧ s.sk = (p - 1) / 2 * ((q - 1) / 2) ∧
      2 * ((p - 1) / 2) + 1 = p ∧ 2 * ((q - 1) / 2) + 1 = q ∧ s.n % 2 = 1 ∧
      s.a = ar % (p * q) * (ar % (p * q)) % (p * q) ∧ s.element_cache = [] ∧
      s.gen = g ∧ s.ctr = 0 ∧ s.sk < 2 ^ 256 ∧ s.prf_key = pk % (2 ^ 256 - 1) := by
  unfold new at h
  dsimp only at h
  split at h
  · cases h
  split at h
  · cases h
  split at h
  · cases h
  split at h
  case _ pc qc hpc hqc =>
    split at h
    · cases h
    case _ hrec =>
      split at h
      case _ n hn =>
        split at h
        · cases h
        case _ hodd =>
          split at h
          case _ sk hsk =>
            obtain ⟨hpc', -⟩ := checkedMul_some hpc
            obtain ⟨hqc', -⟩ := checkedMul_some hqc
            obtain ⟨hn', -⟩ := checkedMul_some hn
            obtain ⟨hsk', hsklt⟩ := checkedMul_some hsk
            have hrec' : pc + 1 = p ∧ qc + 1 = q := by
              constructor <;> [skip; skip] <;>
                · revert hrec
                  simp only [Bool.or_eq_true, bne_iff_ne]
                  omega
            cases h
            refine ⟨by rw [hn'], by rw [hsk'], ?_, ?_, ?_, by rw [hn'], rfl, rfl, rfl, ?_, rfl⟩
            · omega
            · omega
            · revert hodd
              simp only [beq_iff_eq]
              omega
            · rw [hsk']
              exact hsklt
          · cases h
      · cases h
  · cases h

/-- The square of a unit mod `n = p * q` raised to the product of the two
Sophie Germain companions is `1`: the number-theoretic fact that makes the
initial accumulator value an `sk`-th root of unity. -/
theorem sq_unit_pow_companions {p q pPr qPr ar : Nat} (hp : p.Prime) (hq : q.Prime)
    (hpq : p ≠ q) (hpc : 2 * pPr + 1 = p) (hqc : 2 * qPr + 1 = q)
    (har : Nat.Coprime ar (p * q)) :
    (ar * ar) ^ (pPr * qPr) ≡ 1 [MOD p * q] := by
  have h2p : p - 1 = 2 * pPr := by omega
  have h2q : q - 1 = 2 * qPr := by omega
  have harp : Nat.Coprime ar p := Nat.Coprime.coprime_dvd_right (dvd_mul_right p q) har
  have harq : Nat.Coprime ar q := Nat.Coprime.coprime_dvd_right (dvd_mul_left q p) har
  have hP : (ar * ar) ^ (pPr * qPr) ≡ 1 [MOD p] := by
    have h1 : ar ^ (p - 1) ≡ 1 [MOD p] := by
      have := Nat.ModEq.pow_totient harp
      rwa [Nat.totient_prime hp] at this
    have key : (ar * ar) ^ (pPr * qPr) = (ar ^ (p - 1)) ^ qPr := by
      rw [← pow_two, ← pow_mul, ← pow_mul, h2p]
      ring_nf
    rw [key]
    simpa using Nat.ModEq.pow qPr h1
  have hQ : (ar * ar) ^ (pPr * qPr) ≡ 1 [MOD q] := by
    have h1 : ar ^ (q - 1) ≡ 1 [MOD q] := by
      have := Nat.ModEq.pow_totient harq
      rwa [Nat.totient_prime hq] at this
    have key : (ar * ar) ^ (pPr * qPr) = (ar ^ (q - 1)) ^ pPr := by
      rw [← pow_two, ← pow_mul, ← pow_mul, h2q]
      ring_nf
    rw [key]
    simpa using Nat.ModEq.pow pPr h1
  have hcop : Nat.Coprime p q := (Nat.coprime_primes hp hq).mpr hpq
  exact (Nat.modEq_and_modEq_iff_modEq_mul hcop).mp ⟨hP, hQ⟩

/-- A successful setup with a genuine primality oracle and a random unit
establishes both invariants: this is what makes `GoodAcc` the right rendering
of "reachable accumulator state". -/
theorem new_good {isP : Nat → Bool} {p q ar pk : Nat} {g : Nat → Nat} {s : Accumulator}
    (hp : p.Prime) (hq : q.Prime) (hpq : p ≠ q) (har : Nat.Coprime ar (p * q))
    (hg : ∀ k, g k < U256LIM)
    (hok : new isP p q ar pk g = SetupOutcome.ok s) : WF s ∧ GoodAcc s := by
  obtain ⟨hn, hsk, hpc, hqc, -, ha, hcache, hgen, -, hsklt, -⟩ := new_ok_inv hok
  have hnpos : 0 < p * q := Nat.mul_pos hp.pos hq.pos
  constructor
  · refine ⟨by rw [hn]; exact hnpos, ?_, by rw [hsk] at hsklt ⊢; exact le_of_lt hsklt, ?_, ?_⟩
    · rw [ha, hn]
      exact Nat.mod_lt _ hnpos
    · intro k
      rw [hgen]
      exact hg k
    · intro kv hkv
      rw [hcache] at hkv
      cases hkv
  · unfold GoodAcc
    rw [hn, hsk, ha]
    refine mod_eq_of_modEq ?_
    calc (ar % (p * q) * (ar % (p * q)) % (p * q)) ^ ((p - 1) / 2 * ((q - 1) / 2))
        ≡ (ar * ar) ^ ((p - 1) / 2 * ((q - 1) / 2)) [MOD p * q] := by
          refine Nat.ModEq.pow _ ?_
          exact (Nat.mod_modEq _ _).trans ((Nat.mod_modEq ar _).mul (Nat.mod_modEq ar _))
      _ ≡ 1 [MOD p * q] := sq_unit_pow_companions hp hq hpq hpc hqc har

/-! ### Well-formedness of the concrete states -/

theorem two_pow_256_le : (2 : Nat) ^ 256 ≤ 2 ^ 512 :=
  Nat.pow_le_pow_right (by decide) (by decide)

theorem wf_sW : WF sW :=
  ⟨by decide, by decide, by decide, fun k => by show (2 : Nat) < U256LIM; decide,
    by intro kv h; cases h⟩

theorem wf_sB : WF sB :=
  ⟨by decide, by decide, by decide, fun k => by show (3 : Nat) < U256LIM; decide,
    by intro kv h; cases h⟩

theorem gXY_lt (k : Nat) : gXY k < U256LIM := by
  by_cases h : k = 0
  · subst h
    show gXY 0 < U256LIM
    decide
  · show (if k = 0 then 2 else 7) < U256LIM
    rw [if_neg h]
    decide

theorem wf_sD : WF sD :=
  ⟨by decide, by decide, by decide, fun k => gXY_lt k, by intro kv h; cases h⟩

theorem good_sW : GoodAcc sW := by
  unfold GoodAcc
  decide

/-! ### Claim C6 -/

/-- C6: for every byte string `x` and every accumulator state, `add x` leaves
the stored accumulator value `a` unchanged, whether it succeeds or fails. -/
theorem add_preserves_accumulator_value (s : Accumulator) (x : List Nat) :
    (add s x).2.a = s.a := by
  rw [add_state]
  exact getOrGen_a s x

/-! ### Claim C4 -/

/-- C4: for every reduced ring element `base` and 512-bit exponent `e`,
`mont_mod_exp` returns exactly `base ^ e mod n`, and agrees with the plain
square-and-multiply loop that omits the periodic per-chunk reduction. -/
theorem mont_mod_exp_spec (n base e : Nat) (hn : 0 < n) (hb : base < n)
    (he : e < 2 ^ 512) :
    mont_mod_exp n base e = base ^ e % n ∧
      mont_mod_exp n base e = plain_mod_exp n base e := by
  refine ⟨mont_mod_exp_eq base e hn he, ?_⟩
  rw [mont_mod_exp_eq base e hn he, plain_mod_exp_eq base e hn he]

/-- Witness for C4 at `n = 77`, `base = 4`, `e = 8`. -/
theorem mont_mod_exp_spec_witness :
    0 < 77 ∧ 4 < 77 ∧ 8 < 2 ^ 512 ∧
      (mont_mod_exp 77 4 8 = 4 ^ 8 % 77 ∧ mont_mod_exp 77 4 8 = plain_mod_exp 77 4 8) :=
  ⟨by decide, by decide, lt_of_lt_of_le (by decide) two_pow_256_le,
    mont_mod_exp_spec 77 4 8 (by decide) (by decide)
      (lt_of_lt_of_le (by decide) two_pow_256_le)⟩

/-! ### Claim C3 -/

/-- C3: when the exponent assigned to `x` has an inverse `v` mod `sk`,
`delete x` returns `Ok(())` and replaces the stored accumulator value by
`a ^ v mod n`; the secret order, the modulus, the PRF key and the generator
stream are untouched (only the element cache, with its consumption counter,
can change). -/
theorem delete_replaces_accumulator (s : Accumulator) (x : List Nat) (v : Nat)
    (hWF : WF s)
    (hinv : invMod (get_or_generate_element s x).1 s.sk = some v) :
    (delete s x).1 = Except.ok () ∧ (delete s x).2.a = s.a ^ v % s.n ∧
      (delete s x).2.sk = s.sk ∧ (delete s x).2.n = s.n ∧
      (delete s x).2.prf_key = s.prf_key ∧ (delete s x).2.gen = s.gen := by
  obtain ⟨hn, -, hsk, -, -⟩ := hWF
  obtain ⟨-, hv⟩ := invMod_some hinv
  have hv512 : v < 2 ^ 512 := lt_of_lt_of_le (lt_of_lt_of_le hv hsk) (by norm_num [U256LIM])
  rw [delete_eq_some hinv]
  refine ⟨rfl, ?_, getOrGen_sk s x, getOrGen_n s x, getOrGen_prf s x, getOrGen_gen s x⟩
  show mont_mod_exp s.n s.a v % s.n = s.a ^ v % s.n
  rw [mont_mod_exp_eq s.a v hn hv512, Nat.mod_mod_of_dvd _ (dvd_refl s.n)]

/-- Witness for C3: deleting `[3]` from `sW` (exponent `2`, inverse `8`). -/
theorem delete_replaces_accumulator_witness :
    invMod (get_or_generate_element sW [3]).1 sW.sk = some 8 ∧
      ((delete sW [3]).1 = Except.ok () ∧ (delete sW [3]).2.a = sW.a ^ 8 % sW.n ∧
        (delete sW [3]).2.sk = sW.sk ∧ (delete sW [3]).2.n = sW.n ∧
        (delete sW [3]).2.prf_key = sW.prf_key ∧ (delete sW [3]).2.gen = sW.gen) :=
  ⟨by decide, delete_replaces_accumulator sW [3] 8 wf_sW (by decide)⟩

/-! ### Claim C10 -/

/-- C10: `delete` performs no membership check: for an element `x` never seen
before (no cache entry), `delete x` still succeeds whenever the freshly drawn
exponent is invertible mod `sk`, and still replaces the accumulator value by
the corresponding root. -/
theorem delete_without_membership (s : Accumulator) (x : List Nat) (v : Nat)
    (hWF : WF s) (hmiss : cacheLookup s.element_cache x = none)
    (hinv : invMod (s.gen s.ctr) s.sk = some v) :
    (delete s x).1 = Except.ok () ∧ (delete s x).2.a = s.a ^ v % s.n := by
  have hfst : (get_or_generate_element s x).1 = s.gen s.ctr := by
    rw [getOrGen_miss hmiss]
  have hinv' : invMod (get_or_generate_element s x).1 s.sk = some v := by
    rw [hfst]
    exact hinv
  obtain ⟨hn, -, hsk, -, -⟩ := hWF
  obtain ⟨-, hv⟩ := invMod_some hinv'
  have hv512 : v < 2 ^ 512 := lt_of_lt_of_le (lt_of_lt_of_le hv hsk) (by norm_num [U256LIM])
  rw [delete_eq_some hinv']
  refine ⟨rfl, ?_⟩
  show mont_mod_exp s.n s.a v % s.n = s.a ^ v % s.n
  rw [mont_mod_exp_eq s.a v hn hv512, Nat.mod_mod_of_dvd _ (dvd_refl s.n)]

/-- Witness for C10: `[7]` was never added to `sW`, yet `delete` succeeds. -/
theorem delete_without_membership_witness :
    cacheLookup sW.element_cache [7] = none ∧ invMod (sW.gen sW.ctr) sW.sk = some 8 ∧
      ((delete sW [7]).1 = Except.ok () ∧ (delete sW [7]).2.a = sW.a ^ 8 % sW.n) :=
  ⟨by decide, by decide, delete_without_membership sW [7] 8 wf_sW (by decide) (by decide)⟩

/-! ### Claim C5 -/

/-- C5: `add x`, `delete x` and `update_witness_on_deletion x w y` fail with
the NotInvertible error exactly when the relevant exponent (the one assigned
to `x` for add and delete, the one assigned to `y` for update) shares a common
factor with `sk`; on that error the stored accumulator value is unchanged.
There is no other error and no other outcome (in particular no panic: every
`unwrap` in these paths is guarded by the same invertibility test). -/
theorem op_error_iff_not_invertible (s : Accumulator) (x y : List Nat) (w : Nat)
    (hsk : 0 < s.sk) :
    ((add s x).1 = Except.error AccError.notInvertible ↔
        Nat.gcd (get_or_generate_element s x).1 s.sk ≠ 1) ∧
      ((add s x).1 = Except.error AccError.notInvertible → (add s x).2.a = s.a) ∧
      ((delete s x).1 = Except.error AccError.notInvertible ↔
        Nat.gcd (get_or_generate_element s x).1 s.sk ≠ 1) ∧
      ((delete s x).1 = Except.error AccError.notInvertible → (delete s x).2.a = s.a) ∧
      ((update_witness_on_deletion s x w y).1 = Except.error AccError.notInvertible ↔
        Nat.gcd (get_or_generate_element (get_or_generate_element s x).2 y).1 s.sk ≠ 1) ∧
      ((update_witness_on_deletion s x w y).1 = Except.error AccError.notInvertible →
        (update_witness_on_deletion s x w y).2.a = s.a) := by
  refine ⟨?_, ?_, ?_, ?_, ?_, ?_⟩
  · cases h : invMod (get_or_generate_element s x).1 s.sk with
    | none =>
        rw [add_eq_none h]
        exact ⟨fun _ => (invMod_eq_none_iff hsk).mp h, fun _ => rfl⟩
    | some v =>
        rw [add_eq_some h]
        exact ⟨fun hcontra => Except.noConfusion hcontra,
          fun hgcd => absurd (gcd_eq_one_of_invMod_some h) hgcd⟩
  · intro _
    rw [add_state]
    exact getOrGen_a s x
  · cases h : invMod (get_or_generate_element s x).1 s.sk with
    | none =>
        rw [delete_eq_none h]
        exact ⟨fun _ => (invMod_eq_none_iff hsk).mp h, fun _ => rfl⟩
    | some v =>
        rw [delete_eq_some h]
        exact ⟨fun hcontra => Except.noConfusion hcontra,
          fun hgcd => absurd (gcd_eq_one_of_invMod_some h) hgcd⟩
  · cases h : invMod (get_or_generate_element s x).1 s.sk with
    | none =>
        intro _
        rw [delete_eq_none h]
        exact getOrGen_a s x
    | some v =>
        rw [delete_eq_some h]
        exact fun hcontra => Except.noConfusion hcontra
  · cases h : invMod (get_or_generate_element (get_or_generate_element s x).2 y).1 s.sk with
    | none =>
        rw [update_eq_none w h]
        exact ⟨fun _ => (invMod_eq_none_iff hsk).mp h, fun _ => rfl⟩
    | some v =>
        rw [update_eq_some w h]
        exact ⟨fun hcontra => Except.noConfusion hcontra,
          fun hgcd => absurd (gcd_eq_one_of_invMod_some h) hgcd⟩
  · cases h : invMod (get_or_generate_element (get_or_generate_element s x).2 y).1 s.sk with
    | none =>
        intro _
        rw [update_eq_none w h]
        exact (getOrGen_a _ y).trans (getOrGen_a s x)
    | some v =>
        rw [update_eq_some w h]
        exact fun hcontra => Except.noConfusion hcontra

/-- Witness for C5 on `sB`, whose generator outputs `3 = gcd(3, 15)`-sharing
exponents, so every operation fails with NotInvertible and leaves `a` at `4`. -/
theorem op_error_iff_not_invertible_witness :
    0 < sB.sk ∧
      (((add sB [1]).1 = Except.error AccError.notInvertible ↔
          Nat.gcd (get_or_generate_element sB [1]).1 sB.sk ≠ 1) ∧
        ((add sB [1]).1 = Except.error AccError.notInvertible → (add sB [1]).2.a = sB.a) ∧
        ((delete sB [1]).1 = Except.error AccError.notInvertible ↔
          Nat.gcd (get_or_generate_element sB [1]).1 sB.sk ≠ 1) ∧
        ((delete sB [1]).1 = Except.error AccError.notInvertible →
          (delete sB [1]).2.a = sB.a) ∧
        ((update_witness_on_deletion sB [1] 0 [2]).1 = Except.error AccError.notInvertible ↔
          Nat.gcd (get_or_generate_element (get_or_generate_element sB [1]).2 [2]).1 sB.sk
            ≠ 1) ∧
        ((update_witness_on_deletion sB [1] 0 [2]).1 = Except.error AccError.notInvertible →
          (update_witness_on_deletion sB [1] 0 [2]).2.a = sB.a)) :=
  ⟨by decide, op_error_iff_not_invertible sB [1] [2] 0 (by decide)⟩

/-! ### Claim C7 (corrected) -/

/-- C7 counterexample: `verify` is not a pure read of the whole instance — on
a cache miss it mutates the element cache.  Verifying the never-seen element
`[7]` against `sW` (empty cache) inserts the entry `([7], 2)`. -/
theorem verify_mutates_cache_cex :
    (verify sW [7] 0).2.element_cache ≠ sW.element_cache := by
  decide

/-- C7 amended: `verify` never changes the accumulator value, the secret
order, the modulus, the PRF key or the generator stream; and when the element
is already cached it changes nothing at all.  The only possible mutation is
the insertion of a freshly generated exponent for an uncached element. -/
theorem verify_frame (s : Accumulator) (x : List Nat) (w : Nat) :
    (verify s x w).2.a = s.a ∧ (verify s x w).2.sk = s.sk ∧
      (verify s x w).2.n = s.n ∧ (verify s x w).2.prf_key = s.prf_key ∧
      (verify s x w).2.gen = s.gen ∧
      (cacheLookup s.element_cache x ≠ none → (verify s x w).2 = s) := by
  refine ⟨?_, ?_, ?_, ?_, ?_, ?_⟩
  · rw [verify_eq]
    exact getOrGen_a s x
  · rw [verify_eq]
    exact getOrGen_sk s x
  · rw [verify_eq]
    exact getOrGen_n s x
  · rw [verify_eq]
    exact getOrGen_prf s x
  · rw [verify_eq]
    exact getOrGen_gen s x
  · intro h
    cases ho : cacheLookup s.element_cache x with
    | none => exact absurd ho h
    | some e =>
        rw [verify_eq, getOrGen_hit ho]

/-- Witness for C7 on the cached state `sC`: verifying the cached element
`[7]` returns the state unchanged. -/
theorem verify_frame_witness :
    (verify sC [7] 0).2.a = sC.a ∧ (verify sC [7] 0).2 = sC :=
  ⟨(verify_frame sC [7] 0).1, (verify_frame sC [7] 0).2.2.2.2.2 (by decide)⟩

/-! ### Claim C8 -/

/-- C8: once the element mapper has assigned exponent `e` to `x`, the
assignment is permanent: a direct resolution returns `e` without touching the
state, and the cache entry survives (is never overwritten by) any further
`get_or_generate_element`, `add`, `delete`, `verify` or
`update_witness_on_deletion` call, so every later resolution of `x` keeps
returning `e`. -/
theorem cache_assignment_stable (s : Accumulator) (x y z : List Nat) (w : Nat) (e : Nat)
    (hx : cacheLookup s.element_cache x = some e) :
    get_or_generate_element s x = (e, s) ∧
      cacheLookup (get_or_generate_element s y).2.element_cache x = some e ∧
      cacheLookup (add s y).2.element_cache x = some e ∧
      cacheLookup (delete s y).2.element_cache x = some e ∧
      cacheLookup (verify s y w).2.element_cache x = some e ∧
      cacheLookup (update_witness_on_deletion s y w z).2.element_cache x = some e := by
  refine ⟨getOrGen_hit hx, getOrGen_lookup_mono y hx, ?_, ?_, ?_, ?_⟩
  · rw [add_cache]
    exact getOrGen_lookup_mono y hx
  · rw [delete_cache]
    exact getOrGen_lookup_mono y hx
  · rw [verify_cache]
    exact getOrGen_lookup_mono y hx
  · rw [update_cache]
    exact getOrGen_lookup_mono z (getOrGen_lookup_mono y hx)

/-- Witness for C8 on `sC`, where `[7]` is cached with exponent `2`. -/
theorem cache_assignment_stable_witness :
    cacheLookup sC.element_cache [7] = some 2 ∧
      (get_or_generate_element sC [7] = (2, sC) ∧
        cacheLookup (get_or_generate_element sC [9]).2.element_cache [7] = some 2 ∧
        cacheLookup (add sC [9]).2.element_cache [7] = some 2 ∧
        cacheLookup (delete sC [9]).2.element_cache [7] = some 2 ∧
        cacheLookup (verify sC [9] 0).2.element_cache [7] = some 2 ∧
        cacheLookup (update_witness_on_deletion sC [9] 0 [10]).2.element_cache [7]
          = some 2) :=
  ⟨by decide, cache_assignment_stable sC [7] [9] [10] 0 2 (by decide)⟩

/-! ### Claim C1 -/

/-- C1: in any well-formed accumulator state satisfying the reachable-state
invariant `GoodAcc` (the stored value is an `sk`-th root of unity mod `n`,
which setup establishes — `new_good` — and every operation preserves), if
`add x` succeeds with witness `w` (that is, the exponent assigned to `x` is
invertible mod `sk`), then immediately verifying `x` against `w` in the state
left by `add` returns `true`. -/
theorem add_then_verify_true (s : Accumulator) (x : List Nat) (w : Nat)
    (hWF : WF s) (hGood : GoodAcc s)
    (hadd : (add s x).1 = Except.ok w) :
    (verify (add s x).2 x w).1 = true := by
  cases hinv : invMod (get_or_generate_element s x).1 s.sk with
  | none =>
      rw [add_eq_none hinv] at hadd
      exact Except.noConfusion hadd
  | some v =>
      have hn : 0 < s.n := hWF.1
      have hsk : s.sk ≤ U256LIM := hWF.2.2.1
      obtain ⟨hev, hv⟩ := invMod_some hinv
      have hv512 : v < 2 ^ 512 :=
        lt_of_lt_of_le (lt_of_lt_of_le hv hsk) (by norm_num [U256LIM])
      have he512 : (get_or_generate_element s x).1 < 2 ^ 512 :=
        lt_of_lt_of_le (getOrGen_fst_lt x hWF) (by norm_num [U256LIM])
      rw [add_eq_some hinv] at hadd
      have hw : w = s.a ^ v % s.n := by
        have h1 : mont_mod_exp s.n s.a v % s.n = w := by
          simpa using hadd
        rw [← h1, mont_mod_exp_eq s.a v hn hv512, Nat.mod_mod_of_dvd _ (dvd_refl s.n)]
      have hwlt : w < s.n := by
        rw [hw]
        exact Nat.mod_lt _ hn
      have hhit : (get_or_generate_element (add s x).2 x).1 = (get_or_generate_element s x).1 ∧
          (get_or_generate_element (add s x).2 x).2 = (add s x).2 := by
        rw [add_state]
        rw [getOrGen_hit (getOrGen_lookup_self s x)]
        exact ⟨rfl, rfl⟩
      rw [verify_eq, hhit.1]
      simp only [add_state, getOrGen_n, getOrGen_a, beq_iff_eq]
      rw [Nat.mod_eq_of_lt hwlt,
        mont_mod_exp_eq w (get_or_generate_element s x).1 hn he512,
        Nat.mod_mod_of_dvd _ (dvd_refl s.n), hw]
      have hstep1 : (s.a ^ v % s.n) ^ (get_or_generate_element s x).1 % s.n =
          s.a ^ (v * (get_or_generate_element s x).1) % s.n := by
        refine mod_eq_of_modEq ?_
        calc (s.a ^ v % s.n) ^ (get_or_generate_element s x).1
            ≡ (s.a ^ v) ^ (get_or_generate_element s x).1 [MOD s.n] :=
              Nat.ModEq.pow _ (Nat.mod_modEq _ s.n)
          _ = s.a ^ (v * (get_or_generate_element s x).1) := (pow_mul s.a v _).symm
      rw [hstep1]
      exact pow_modEq_cancel hGood (by rw [Nat.mul_comm]; exact hev)

set_option maxRecDepth 100000 in
/-- Witness for C1: adding `[7]` to `sW` yields witness `9 = 4 ^ 8 mod 77`,
and verifying it returns `true`. -/
theorem add_then_verify_true_witness :
    (add sW [7]).1 = Except.ok 9 ∧ (verify (add sW [7]).2 [7] 9).1 = true :=
  ⟨rfl, add_then_verify_true sW [7] 9 wf_sW good_sW rfl⟩

/-! ### Claim C9 (corrected) -/

/-- C9 counterexample: the claim says setup "returns a setup error (not a
panic) whenever either companion is not prime".  With the genuine primality
oracle and `p = q = 13` (companion `6`, not prime), `new` panics at the
`assert!(is_safe_prime(..))` instead of returning either setup error. -/
theorem new_nonprime_companion_cex :
    new isPrimeNat 13 13 0 0 g2 = SetupOutcome.panicked ∧
      new isPrimeNat 13 13 0 0 g2 ≠ SetupOutcome.failed SetupErr.nonPrimeCompanion ∧
      new isPrimeNat 13 13 0 0 g2 ≠ SetupOutcome.failed SetupErr.badReconstruction := by
  have h : new isPrimeNat 13 13 0 0 g2 = SetupOutcome.panicked := rfl
  refine ⟨h, ?_, ?_⟩ <;> rw [h] <;> exact fun hc => SetupOutcome.noConfusion hc

/-- C9 amended: every successful `setup` produces `n = p * q` odd,
`sk = ((p−1)/2) * ((q−1)/2)` with both reconstructions `2 * companion + 1`
agreeing with the generated primes; but when either companion is not prime
(according to the oracle), setup panics at the safe-prime assertions rather
than returning the setup error — the non-prime-companion error branch is
unreachable once the assertions pass. -/
theorem new_setup_spec (isP : Nat → Bool) (p q ar pk : Nat) (g : Nat → Nat) :
    (∀ s, new isP p q ar pk g = SetupOutcome.ok s →
        s.n % 2 = 1 ∧ s.n = p * q ∧ s.sk = (p - 1) / 2 * ((q - 1) / 2) ∧
          2 * ((p - 1) / 2) + 1 = p ∧ 2 * ((q - 1) / 2) + 1 = q) ∧
      ((isP ((p - 1) / 2) = false ∨ isP ((q - 1) / 2) = false) →
        new isP p q ar pk g = SetupOutcome.panicked) := by
  constructor
  · intro s hok
    obtain ⟨h1, h2, h3, h4, h5, -⟩ := new_ok_inv hok
    exact ⟨h5, h1, h2, h3, h4⟩
  · intro hcomp
    unfold new
    rcases hcomp with hcp | hcq
    · have hsp : is_safe_prime isP p = false := by
        simp [is_safe_prime, hcp]
      simp [hsp]
    · cases hsp : is_safe_prime isP p with
      | false => simp [hsp]
      | true =>
          have hsq : is_safe_prime isP q = false := by
            simp [is_safe_prime, hcq]
          simp [hsp, hsq]

set_option maxRecDepth 100000 in
/-- Witness for C9: a successful run at `p = 7`, `q = 11` (yielding `sW`)
realizes the algebraic conclusions, and nonexistent companion primality at
`p = 13` realizes the panic branch. -/
theorem new_setup_spec_witness :
    (sW.n % 2 = 1 ∧ sW.n = 7 * 11 ∧ sW.sk = (7 - 1) / 2 * ((11 - 1) / 2) ∧
        2 * ((7 - 1) / 2) + 1 = 7 ∧ 2 * ((11 - 1) / 2) + 1 = 11) ∧
      new isPrimeNat 13 13 0 0 g2 = SetupOutcome.panicked :=
  ⟨(new_setup_spec isPrimeNat 7 11 2 0 g2).1 sW rfl,
    (new_setup_spec isPrimeNat 13 13 0 0 g2).2 (Or.inl rfl)⟩

/-! ### Claim C2 -/

/-- C2: if `verify x w` returned `true` in state `s` (leaving state `s1`), and
`delete y` then succeeded (leaving state `s2`, so the exponent `ey` cached for
`y` has inverse `vy` mod `sk`), then `update_witness_on_deletion x w y` in the
post-deletion state succeeds, returns exactly `w ^ (ey⁻¹ mod sk) mod n`
without further state change, and verifying `x` against the new witness in the
post-deletion state returns `true`. -/
theorem update_witness_on_deletion_correct (s s1 s2 : Accumulator) (x y : List Nat)
    (w ey vy : Nat) (hWF : WF s) (hxy : x ≠ y)
    (hxinv : invMod (get_or_generate_element s x).1 s.sk ≠ none)
    (hver : verify s x w = (true, s1))
    (hdel : delete s1 y = (Except.ok (), s2))
    (hey : cacheLookup s2.element_cache y = some ey)
    (hvy : invMod ey s2.sk = some vy) :
    update_witness_on_deletion s2 x w y = (Except.ok (w ^ vy % s2.n), s2) ∧
      (verify s2 x (w ^ vy % s2.n)).1 = true := by
  have hn : 0 < s.n := hWF.1
  have hsk : s.sk ≤ U256LIM := hWF.2.2.1
  have hex512 : (get_or_generate_element s x).1 < 2 ^ 512 :=
    lt_of_lt_of_le (getOrGen_fst_lt x hWF) (by norm_num [U256LIM])
  rw [verify_eq] at hver
  injection hver with hb hs1
  subst hs1
  simp only [beq_iff_eq] at hb
  rw [mont_mod_exp_eq (w % s.n) ((get_or_generate_element s x).1) hn hex512,
    Nat.mod_mod_of_dvd _ (dvd_refl s.n)] at hb
  cases hinvy : invMod
      (get_or_generate_element (get_or_generate_element s x).2 y).1
      ((get_or_generate_element s x).2).sk with
  | none =>
      rw [delete_eq_none hinvy] at hdel
      injection hdel with h1 h2
      exact Except.noConfusion h1
  | some v =>
      rw [delete_eq_some hinvy] at hdel
      injection hdel with h1 h2
      have hvs : v < s.sk := by
        have := (invMod_some hinvy).2
        simpa using this
      have hv512 : v < 2 ^ 512 :=
        lt_of_lt_of_le (lt_of_lt_of_le hvs hsk) (by norm_num [U256LIM])
      have hs2n : s2.n = s.n := by
        rw [← h2]
        show (get_or_generate_element (get_or_generate_element s x).2 y).2.n = s.n
        rw [getOrGen_n, getOrGen_n]
      have hs2sk : s2.sk = s.sk := by
        rw [← h2]
        show (get_or_generate_element (get_or_generate_element s x).2 y).2.sk = s.sk
        rw [getOrGen_sk, getOrGen_sk]
      have hs2cache : s2.element_cache =
          (get_or_generate_element (get_or_generate_element s x).2 y).2.element_cache := by
        rw [← h2]
      have hs2a : s2.a = s.a ^ v % s.n := by
        rw [← h2]
        show mont_mod_exp ((get_or_generate_element s x).2).n
            ((get_or_generate_element s x).2).a v % ((get_or_generate_element s x).2).n
          = s.a ^ v % s.n
        rw [getOrGen_n, getOrGen_a, mont_mod_exp_eq s.a v hn hv512,
          Nat.mod_mod_of_dvd _ (dvd_refl s.n)]
      have hlookx : cacheLookup s2.element_cache x =
          some (get_or_generate_element s x).1 := by
        rw [hs2cache]
        exact getOrGen_lookup_mono y (getOrGen_lookup_self s x)
      have heyv : ey = (get_or_generate_element (get_or_generate_element s x).2 y).1 := by
        have h3 : cacheLookup s2.element_cache y =
            some (get_or_generate_element (get_or_generate_element s x).2 y).1 := by
          rw [hs2cache]
          exact getOrGen_lookup_self _ y
        rw [hey] at h3
        exact (Option.some.injEq _ _).mp h3
      have hvyv : vy = v := by
        have h4 : invMod ey s2.sk = some v := by
          rw [heyv, hs2sk]
          simpa using hinvy
        rw [hvy] at h4
        exact (Option.some.injEq _ _).mp h4.symm |>.symm
      have hhx : get_or_generate_element s2 x = ((get_or_generate_element s x).1, s2) :=
        getOrGen_hit hlookx
      have hhy : get_or_generate_element s2 y = (ey, s2) := getOrGen_hit hey
      have hhx2 : (get_or_generate_element s2 x).2 = s2 := by rw [hhx]
      have hhx1 : (get_or_generate_element s2 x).1 = (get_or_generate_element s x).1 := by
        rw [hhx]
      have hhy1 : (get_or_generate_element s2 y).1 = ey := by rw [hhy]
      have hhy2 : (get_or_generate_element s2 y).2 = s2 := by rw [hhy]
      have h6 : invMod (get_or_generate_element (get_or_generate_element s2 x).2 y).1 s2.sk
          = some vy := by
        rw [hhx2, hhy1]
        exact hvy
      have hn2 : 0 < s2.n := by
        rw [hs2n]
        exact hn
      have hvy512 : vy < 2 ^ 512 := by
        rw [hvyv]
        exact hv512
      have hval : mont_mod_exp s2.n (w % s2.n) vy % s2.n = w ^ vy % s2.n := by
        rw [mont_mod_exp_eq (w % s2.n) vy hn2 hvy512,
          Nat.mod_mod_of_dvd _ (dvd_refl s2.n)]
        exact mod_eq_of_modEq (Nat.ModEq.pow vy (Nat.mod_modEq w s2.n))
      constructor
      · rw [update_eq_some w h6, hhx2, hhy2, hval]
      · rw [verify_eq, hhx1]
        show (mont_mod_exp s2.n (w ^ vy % s2.n % s2.n) (get_or_generate_element s x).1
            % s2.n == s2.a % s2.n) = true
        simp only [beq_iff_eq]
        rw [Nat.mod_mod_of_dvd _ (dvd_refl s2.n),
          mont_mod_exp_eq (w ^ vy % s2.n) ((get_or_generate_element s x).1) hn2 hex512,
          Nat.mod_mod_of_dvd _ (dvd_refl s2.n), hs2n, hs2a, hvyv]
        have hVerEq : (w % s.n) ^ (get_or_generate_element s x).1 ≡ s.a [MOD s.n] := hb
        refine mod_eq_of_modEq ?_
        calc (w ^ v % s.n) ^ (get_or_generate_element s x).1
            ≡ (w ^ v) ^ (get_or_generate_element s x).1 [MOD s.n] :=
              Nat.ModEq.pow _ (Nat.mod_modEq _ s.n)
          _ = (w ^ (get_or_generate_element s x).1) ^ v := by
              rw [← pow_mul, ← pow_mul, Nat.mul_comm]
          _ ≡ ((w % s.n) ^ (get_or_generate_element s x).1) ^ v [MOD s.n] :=
              Nat.ModEq.pow v (Nat.ModEq.pow _ (Nat.mod_modEq w s.n)).symm
          _ ≡ s.a ^ v [MOD s.n] := Nat.ModEq.pow v hVerEq
          _ ≡ s.a ^ v % s.n [MOD s.n] := (Nat.mod_modEq _ s.n).symm

set_option maxRecDepth 400000 in
/-- Witness for C2: the scenario `verify [7] 9 = true` in `sD`, then
`delete [8]` (exponent `7`, inverse `13`), then the witness update
`9 ^ 13 ≡ 58 (mod 77)` verifies against the post-deletion value `53`. -/
theorem update_witness_on_deletion_correct_witness :
    update_witness_on_deletion sD2 [7] 9 [8] = (Except.ok (9 ^ 13 % sD2.n), sD2) ∧
      (verify sD2 [7] (9 ^ 13 % sD2.n)).1 = true :=
  update_witness_on_deletion_correct sD sD1 sD2 [7] [8] 9 7 13 wf_sD (by decide)
    (by decide) rfl rfl (by decide) (by decide)

end Braavos
